import Mathlib

/-!
Verification of the repovis history-aggregation pipeline and query engine.

The repository snapshot contains the SQLite schema (schema.sql), the
frontend visualization (web/js/treemap.js) and documentation.  The Python
preprocessor (preprocessor/preprocess.py) and server (server/server.py)
are referenced by the documentation but their sources are not in the
snapshot; the components they implement (Metric Accumulator, Path
Resolver, Contributor Registry, Query Engine) are modelled here from the
specification text, as marked on each definition.  Everything else is
translated from web/js/treemap.js.
-/

namespace Repovis

/-! ### Contributor filter parameters (web/js/treemap.js, loadMetrics) -/

/-- The contributor predicate transmitted to the server as a URL parameter.
Mirrors the three shapes produced by loadMetrics in web/js/treemap.js:
no parameter at all, a contributors=... inclusion list, or an
exclude_contributors=... exclusion list. -/
inductive FilterParam where
  | noFilter : FilterParam
  | contributors : List Int → FilterParam
  | exclude_contributors : List Int → FilterParam
deriving DecidableEq

/-- Filter-strategy selection, translated from web/js/treemap.js
loadMetrics (lines 155-183).  In the source, totalContributors is
this.contributors.length and selectedCount is contributorIds.length; the
JS test selectedCount &lt;= totalContributors / 2 uses exact float division,
rendered here as 2 * selectedCount ≤ totalContributors.  An empty
selection sends contributors=-1 (an id that matches no rows); fewer than
half selected sends the inclusion list; more than half but not all sends
the unselected complement as exclude_contributors; a full selection sends
no parameter. -/
def chooseFilter (allContributorIds : List Int) (contributorIds : List Int) : FilterParam :=
  let totalContributors := allContributorIds.length
  let selectedCount := contributorIds.length
  if selectedCount = 0 then
    FilterParam.contributors [-1]
  else if 2 * selectedCount ≤ totalContributors then
    FilterParam.contributors contributorIds
  else if selectedCount < totalContributors then
    FilterParam.exclude_contributors
      (allContributorIds.filter (fun id => !(contributorIds.contains id)))
  else
    FilterParam.noFilter

/-- The list of contributor ids actually transmitted in the URL for a
given filter parameter (empty when no parameter is sent). -/
def sentIds : FilterParam → List Int
  | FilterParam.noFilter => []
  | FilterParam.contributors l => l
  | FilterParam.exclude_contributors l => l

/-- Row-level semantics of the transmitted predicate: SQL
contributor_id IN (...) for the inclusion form, contributor_id NOT IN
(...) for the exclusion form, no restriction when absent. -/
def matchesFilter : FilterParam → Int → Bool
  | FilterParam.noFilter, _ => true
  | FilterParam.contributors l, c => l.contains c
  | FilterParam.exclude_contributors l, c => !(l.contains c)

/-! ### The persistent store rows (schema.sql) -/

/-- A row of the files table (schema.sql lines 4-11): unique path,
nullable parent, display name, directory flag.  Directory paths carry a
trailing slash. -/
structure FileRow where
  id : Nat
  path : String
  parent_id : Option Nat
  name : String
  is_directory : Bool
deriving DecidableEq

/-- A row of the file_metrics table (schema.sql lines 27-39): one
aggregation bucket per (file_id, contributor_id, date) with counters.
Dates (ISO days) are rendered as naturals ordered chronologically. -/
structure MetricBucket where
  file_id : Nat
  contributor_id : Int
  date : Nat
  commit_count : Nat
  lines_added : Nat
  lines_deleted : Nat
deriving DecidableEq

/-- The three metrics a query may aggregate. -/
inductive Metric where
  | commit_count : Metric
  | lines_added : Metric
  | lines_deleted : Metric
deriving DecidableEq

/-- The counter of a bucket selected by a metric. -/
def metricValue (m : Metric) (b : MetricBucket) : Nat :=
  match m with
  | Metric.commit_count => b.commit_count
  | Metric.lines_added => b.lines_added
  | Metric.lines_deleted => b.lines_deleted

/-! ### Query Engine (modelled from the spec; server/server.py is not in
the snapshot) -/

/-- Modelled from the spec: per-file aggregation of the Query Engine
(section 4.6); server/server.py is not in the repository snapshot.  The
sum of the requested metric over buckets of the given file whose day lies
in the inclusive range and whose contributor matches the filter. -/
def fileValue (buckets : List MetricBucket) (m : Metric) (s e : Nat)
    (flt : FilterParam) (fid : Nat) : Nat :=
  ((buckets.filter (fun b =>
      b.file_id == fid && decide (s ≤ b.date) && decide (b.date ≤ e) &&
      matchesFilter flt b.contributor_id)).map (metricValue m)).sum

/-- Modelled from the spec: the file ids whose buckets contribute to a
node (section 4.6: directories receive the sum of all descendant file
sums; directory paths carry a trailing separator, so descendants are the
non-directory rows whose path extends the directory path). -/
def subtreeFileIds (files : List FileRow) (n : FileRow) : List Nat :=
  if n.is_directory then
    (files.filter (fun f => !f.is_directory && n.path.isPrefixOf f.path)).map FileRow.id
  else
    [n.id]

/-- Modelled from the spec: the aggregated value reported for one node
(section 4.6); a file node sums its own buckets, a directory node sums
its descendant files. -/
def nodeValue (files : List FileRow) (buckets : List MetricBucket) (m : Metric)
    (s e : Nat) (flt : FilterParam) (n : FileRow) : Nat :=
  ((subtreeFileIds files n).map (fileValue buckets m s e flt)).sum

/-- Modelled from the spec: queryTree of the Query Engine (sections 4.6
and 7); server/server.py is not in the repository snapshot.  A range with
the end before the start is rejected with a descriptive error and no
default substitution; otherwise every node of the hierarchy is reported
with its aggregated value. -/
def queryTree (files : List FileRow) (buckets : List MetricBucket)
    (s e : Nat) (flt : FilterParam) (m : Metric) :
    Except String (List (Nat × Nat)) :=
  if e < s then
    Except.error "end_date is before start_date"
  else
    Except.ok (files.map (fun f => (f.id, nodeValue files buckets m s e flt f)))

/-! ### Metric Accumulator (modelled from the spec;
preprocessor/preprocess.py is not in the snapshot) -/

/-- The key of the in-memory accumulator map: (fileId, contributorId,
day). -/
structure BucketKey where
  fileId : Nat
  contributorId : Nat
  day : Nat
deriving DecidableEq

/-- The mutable counter triple held per key. -/
structure Counters where
  commit_count : Nat
  lines_added : Nat
  lines_deleted : Nat
deriving DecidableEq

/-- The in-memory accumulator map, as an association list in insertion
order. -/
abbrev AccMap := List (BucketKey × Counters)

/-- Modelled from the spec: the in-place counter update applied to the
entry whose key matches (commit_count + 1, lines accumulated); other
entries are untouched. -/
def bump (added deleted : Nat) (k : BucketKey) (p : BucketKey × Counters) :
    BucketKey × Counters :=
  if p.1 == k then
    (p.1, Counters.mk (p.2.commit_count + 1) (p.2.lines_added + added)
      (p.2.lines_deleted + deleted))
  else p

/-- Modelled from the spec: the Metric Accumulator record operation
(section 4.4); preprocessor/preprocess.py is not in the repository
snapshot.  If the key is present its counters are updated in place;
otherwise a fresh bucket is appended. -/
def record (m : AccMap) (k : BucketKey) (added deleted : Nat) : AccMap :=
  if m.any (fun p => p.1 == k) then
    m.map (bump added deleted k)
  else
    m ++ [(k, Counters.mk 1 added deleted)]

/-- One (commit, changed file) event emitted by the History Walker: the
touched file, the resolving contributor, the commit day and the diff line
counts. -/
structure ChangeEvent where
  fileId : Nat
  contributorId : Nat
  day : Nat
  added : Nat
  deleted : Nat
deriving DecidableEq

/-- Modelled from the spec: a complete ingestion folds every event of the
walk into the accumulator, starting from the empty map. -/
def ingest (evs : List ChangeEvent) : AccMap :=
  evs.foldl (fun m e => record m (BucketKey.mk e.fileId e.contributorId e.day) e.added e.deleted) []

/-- Total commit_count over all buckets belonging to one file. -/
def fileCommitCount (m : AccMap) (fid : Nat) : Nat :=
  (m.map (fun p => if p.1.fileId = fid then p.2.commit_count else 0)).sum

/-! ### Path Resolver (modelled from the spec;
preprocessor/preprocess.py is not in the snapshot).  The source splits
the forward-slash-delimited path into segments; the resolver here takes
that segment list directly. -/

/-- Joins path segments back with forward slashes. -/
def joinSegs : List String → String
  | [] => ""
  | [s] => s
  | s :: rest => s ++ "/" ++ joinSegs rest

/-- The stored path of a node: directories carry a trailing separator. -/
def joinPath (segs : List String) (isDir : Bool) : String :=
  joinSegs segs ++ (if isDir then "/" else "")

/-- Lookup of a node by its unique path. -/
def findByPath (t : List FileRow) (p : String) : Option FileRow :=
  t.find? (fun f => f.path == p)

/-- Modelled from the spec: get-or-create of one node (section 4.1);
preprocessor/preprocess.py is not in the repository snapshot.  An
existing node is reused with its id and the table is unchanged; a missing
node is appended with the next id and the caller-supplied parent and
directory flag. -/
def ensureNode (t : List FileRow) (p nm : String) (parent : Option Nat)
    (isDir : Bool) : List FileRow × Nat :=
  match findByPath t p with
  | some f => (t, f.id)
  | none =>
      let nid := t.length + 1
      (t ++ [FileRow.mk nid p parent nm isDir], nid)

/-- Modelled from the spec: the prefix walk of the Path Resolver (section
4.1).  Each proper prefix is ensured as a directory node whose parent is
the previous prefix's node; the final segment is created with the
caller-supplied directory flag. -/
def resolveSegs (t : List FileRow) (parent : Option Nat) (acc : List String)
    (segs : List String) (isDir : Bool) : List FileRow × Nat :=
  match segs with
  | [] => (t, 0)
  | [last] => ensureNode t (joinPath (acc ++ [last]) isDir) last parent isDir
  | s :: rest =>
      let r := ensureNode t (joinPath (acc ++ [s]) true) s parent true
      resolveSegs r.1 (some r.2) (acc ++ [s]) rest isDir

/-- Modelled from the spec: resolve(path) of the Path Resolver (section
4.1), on the segment list of the path. -/
def resolve (t : List FileRow) (segs : List String) (isDir : Bool) :
    List FileRow × Nat :=
  resolveSegs t none [] segs isDir

/-! ### Contributor Registry (modelled from the spec;
preprocessor/preprocess.py is not in the snapshot) -/

/-- A row of the contributors table (schema.sql lines 17-21): unique
email, first-seen display name. -/
structure Contributor where
  id : Nat
  name : String
  email : String
deriving DecidableEq

/-- Modelled from the spec: resolve(name, email) of the Contributor
Registry (section 4.2); preprocessor/preprocess.py is not in the
repository snapshot.  Lookup by email; on miss, create with the given
name and email; no merge or alias logic. -/
def resolveContributor (t : List Contributor) (nm em : String) :
    List Contributor × Nat :=
  match t.find? (fun c => c.email == em) with
  | some c => (t, c.id)
  | none => (t ++ [Contributor.mk (t.length + 1) nm em], t.length + 1)

/-! ### The client request queue (web/js/treemap.js, loadMetrics) -/

/-- The parameters of one metrics request, as captured by the
requestParams object in loadMetrics. -/
structure ReqParams where
  startDate : Nat
  endDate : Nat
  contributorIds : Option (List Int)
deriving DecidableEq

/-- The two request slots of TreemapVis: the in-flight request and the
single queued next request (web/js/treemap.js lines 16-17). -/
structure VisState where
  pendingMetricsRequest : Option ReqParams
  nextMetricsRequest : Option ReqParams
deriving DecidableEq

/-- Entry of loadMetrics (web/js/treemap.js lines 131-145), translated
from the source: a call made while a request is pending only overwrites
the next-request slot and issues nothing; otherwise the call becomes the
pending request and its fetch is issued (returned as the second
component). -/
def loadMetricsEnter (st : VisState) (p : ReqParams) : VisState × Option ReqParams :=
  match st.pendingMetricsRequest with
  | some _ => (VisState.mk st.pendingMetricsRequest (some p), none)
  | none => (VisState.mk (some p) st.nextMetricsRequest, some p)

/-- Completion of the in-flight request: the finally block of loadMetrics
(web/js/treemap.js lines 213-223), translated from the source.  The
pending slot is cleared; if a next request is queued it is drained and
re-enters loadMetrics, which issues it. -/
def loadMetricsFinally (st : VisState) : VisState × Option ReqParams :=
  match st.nextMetricsRequest with
  | some p => loadMetricsEnter (VisState.mk none none) p
  | none => (VisState.mk none st.nextMetricsRequest, none)

/-- The events the queue reacts to: a loadMetrics call with given
parameters, or completion of the in-flight fetch. -/
inductive QEvent where
  | call : ReqParams → QEvent
  | complete : QEvent
deriving DecidableEq

/-- One step of the client queue; the second component is the request
issued by this step, if any. -/
def qstep (st : VisState) : QEvent → VisState × Option ReqParams
  | QEvent.call p => loadMetricsEnter st p
  | QEvent.complete => loadMetricsFinally st

/-- The state after a sequence of events. -/
def qexec (st : VisState) (es : List QEvent) : VisState :=
  es.foldl (fun s e => (qstep s e).1) st

/-- How many fetches a sequence of events causes to be issued. -/
def issuedCount (st : VisState) : List QEvent → Nat
  | [] => 0
  | e :: es =>
      (if ((qstep st e).2).isSome then 1 else 0) + issuedCount (qstep st e).1 es

/-- How many completions a sequence of events contains. -/
def completedCount (es : List QEvent) : Nat :=
  es.countP (fun e => e == QEvent.complete)

/-- A trace is valid when a completion only occurs while a request is in
flight (the browser completes only fetches that were issued). -/
def validFrom (st : VisState) : List QEvent → Bool
  | [] => true
  | e :: es =>
      (match e with
       | QEvent.complete => st.pendingMetricsRequest.isSome
       | QEvent.call _ => true) && validFrom (qstep st e).1 es

/-- The number of outstanding requests represented by a state: one when a
request is in flight, zero otherwise. -/
def outstanding (st : VisState) : Nat :=
  if st.pendingMetricsRequest.isSome then 1 else 0

/-! ### buildHierarchy (web/js/treemap.js, lines 373-410) -/

/-- A file record as consumed by buildHierarchy: id, nullable parent id,
display name, directory flag.  Record ids are unique in the data served
by the API (SQL primary key); the list-level reading below assumes that
uniqueness. -/
structure JFile where
  id : Nat
  parent_id : Option Nat
  name : String
  is_directory : Bool
deriving DecidableEq

/-- The root test of buildHierarchy, translated from the branch
condition f.parent_id === null or fileMap lacks f.parent_id
(web/js/treemap.js line 394). -/
def isRootRecord (files : List JFile) (f : JFile) : Bool :=
  f.parent_id == none || !(files.any (fun g => some g.id == f.parent_id))

/-- The records pushed onto the roots array, in iteration order. -/
def rootsOf (files : List JFile) : List JFile :=
  files.filter (isRootRecord files)

/-- The records pushed onto the children array of the map node with the
given id, in iteration order (web/js/treemap.js line 397). -/
def childrenOf (files : List JFile) (parentId : Nat) : List JFile :=
  files.filter (fun f => f.parent_id == some parentId)

/-- The value returned by buildHierarchy: either the single root record
directly, or a synthetic wrapper node with the given name, directory
flag, and root records as children. -/
inductive BuiltTree where
  | direct : JFile → BuiltTree
  | synthetic : String → Bool → List JFile → BuiltTree
deriving DecidableEq

/-- buildHierarchy's return shape (web/js/treemap.js lines 401-410): a
sole root is returned directly, otherwise all roots become children of a
synthetic directory node named root. -/
def buildHierarchy (files : List JFile) : BuiltTree :=
  match rootsOf files with
  | [r] => BuiltTree.direct r
  | _ => BuiltTree.synthetic "root" true (rootsOf files)

/-! ### Auxiliary list lemmas -/

/-- Splitting a list by a boolean predicate preserves its length. -/
theorem length_filter_add_length_filter_not (l : List Int) (p : Int → Bool) :
    (l.filter p).length + (l.filter (fun a => !(p a))).length = l.length := by
  induction l with
  | nil => rfl
  | cons a t ih =>
      cases h : p a <;> simp [List.filter_cons, h] <;> omega

/-- Filtering a duplicate-free list down to the members of a
duplicate-free sublist recovers the sublist's length. -/
theorem length_filter_contains (allIds sel : List Int)
    (hsub : ∀ i ∈ sel, i ∈ allIds) (hna : allIds.Nodup) (hns : sel.Nodup) :
    (allIds.filter (fun i => sel.contains i)).length = sel.length := by
  have h1 : sel.Subperm (allIds.filter (fun i => sel.contains i)) := by
    apply hns.subperm
    intro x hx
    exact List.mem_filter.2 ⟨hsub x hx, by simp [List.elem_iff]; exact hx⟩
  have h2 : (allIds.filter (fun i => sel.contains i)).Subperm sel := by
    apply (hna.filter _).subperm
    intro x hx
    have := (List.mem_filter.1 hx).2
    simpa [List.elem_iff] using this
  exact ((h1.antisymm h2).length_eq).symm

/-- Membership in the complement list: for an element of the full id
list, the complement contains it exactly when the selection does not. -/
theorem contains_filter_not (allIds sel : List Int) (c : Int) (hc : c ∈ allIds) :
    ((allIds.filter (fun i => !(sel.contains i))).contains c) = !(sel.contains c) := by
  cases h : sel.contains c with
  | true =>
      simp only [Bool.not_true]
      simp [List.elem_iff, List.mem_filter]
      intro hmem
      simp [List.elem_iff] at h
      exact h
  | false =>
      simp only [Bool.not_false]
      simp [List.elem_iff, List.mem_filter, hc, h]
      exact fun hmem => by simp [List.elem_iff, hmem] at h

/-! ### C1: filter strategy selection -/

/-- C1 counterexample: with T = 1 contributor and an empty selection, the
claim's zero-selection branch transmits the one-entry sentinel list -1 as
the contributors parameter, so the transmitted predicate list has one
entry, which exceeds T/2 = 1/2: the claimed bound fails as stated. -/
theorem filter_strategy_counterexample :
    chooseFilter [1] [] = FilterParam.contributors [-1] ∧
    ([1] : List Int).length < 2 * (sentIds (chooseFilter [1] [])).length := by
  decide

/-- C1 (amended): the filter strategy of loadMetrics is chosen exactly as
specified: an empty selection sends the one-entry sentinel list -1, which
matches no stored contributor id (but can itself exceed T/2 entries, as
when T = 1); a nonzero selection of at most half the contributors is sent
as the inclusion list; more than half but not all sends the complement of
T - S unselected ids as the exclusion parameter; a full nonempty selection
sends no predicate; and for every nonempty selection the transmitted
predicate list never exceeds T/2 entries. -/
theorem filter_strategy_selection (allIds sel : List Int)
    (hsub : ∀ i ∈ sel, i ∈ allIds) (hna : allIds.Nodup) (hns : sel.Nodup)
    (hpos : ∀ i ∈ allIds, 0 ≤ i) :
    (sel.length = 0 →
       chooseFilter allIds sel = FilterParam.contributors [-1] ∧
       ∀ c ∈ allIds, matchesFilter (chooseFilter allIds sel) c = false) ∧
    (0 < sel.length → sel.length = allIds.length →
       chooseFilter allIds sel = FilterParam.noFilter) ∧
    (0 < sel.length → 2 * sel.length ≤ allIds.length →
       chooseFilter allIds sel = FilterParam.contributors sel) ∧
    (allIds.length < 2 * sel.length → sel.length < allIds.length →
       chooseFilter allIds sel =
         FilterParam.exclude_contributors
           (allIds.filter (fun i => !(sel.contains i))) ∧
       (sentIds (chooseFilter allIds sel)).length = allIds.length - sel.length) ∧
    (0 < sel.length → 2 * (sentIds (chooseFilter allIds sel)).length ≤ allIds.length) := by
  have hsle : sel.length ≤ allIds.length := (hns.subperm hsub).length_le
  have hcomp : (allIds.filter (fun i => !(sel.contains i))).length
      = allIds.length - sel.length := by
    have hsplit := length_filter_add_length_filter_not allIds (fun i => sel.contains i)
    have hc := length_filter_contains allIds sel hsub hna hns
    omega
  refine ⟨?_, ?_, ?_, ?_, ?_⟩
  · intro h0
    have heq : chooseFilter allIds sel = FilterParam.contributors [-1] := by
      simp [chooseFilter, h0]
    refine ⟨heq, ?_⟩
    intro c hc
    rw [heq]
    simp only [matchesFilter]
    simp [List.elem_iff]
    have := hpos c hc
    omega
  · intro hp heq
    have h0 : sel.length ≠ 0 := by omega
    have h2 : ¬ (2 * sel.length ≤ allIds.length) := by omega
    have h3 : ¬ (sel.length < allIds.length) := by omega
    simp [chooseFilter, h0, h2, h3]
  · intro hp hle
    have h0 : sel.length ≠ 0 := by omega
    simp [chooseFilter, h0, hle]
  · intro hgt hlt
    have h0 : sel.length ≠ 0 := by omega
    have h2 : ¬ (2 * sel.length ≤ allIds.length) := by omega
    have heq : chooseFilter allIds sel =
        FilterParam.exclude_contributors
          (allIds.filter (fun i => !(sel.contains i))) := by
      simp [chooseFilter, h0, h2, hlt]
    refine ⟨heq, ?_⟩
    rw [heq]
    simpa [sentIds] using hcomp
  · intro hp
    have h0 : sel.length ≠ 0 := by omega
    by_cases h2 : 2 * sel.length ≤ allIds.length
    · have heq : chooseFilter allIds sel = FilterParam.contributors sel := by
        simp [chooseFilter, h0, h2]
      rw [heq]
      simpa [sentIds] using h2
    · by_cases h3 : sel.length < allIds.length
      · have heq : chooseFilter allIds sel =
            FilterParam.exclude_contributors
              (allIds.filter (fun i => !(sel.contains i))) := by
          simp [chooseFilter, h0, h2, h3]
        rw [heq]
        simp only [sentIds]
        omega
      · have heq : chooseFilter allIds sel = FilterParam.noFilter := by
          simp [chooseFilter, h0, h2, h3]
        rw [heq]
        simp [sentIds]

/-- Witness for the amended C1 theorem at the concrete input of three
contributor ids with one selected. -/
theorem filter_strategy_selection_witness :
    ((∀ i ∈ ([1] : List Int), i ∈ ([1, 2, 3] : List Int)) ∧
      ([1, 2, 3] : List Int).Nodup ∧ ([1] : List Int).Nodup ∧
      (∀ i ∈ ([1, 2, 3] : List Int), 0 ≤ i)) ∧
    ((([1] : List Int).length = 0 →
       chooseFilter [1, 2, 3] [1] = FilterParam.contributors [-1] ∧
       ∀ c ∈ ([1, 2, 3] : List Int),
         matchesFilter (chooseFilter [1, 2, 3] [1]) c = false) ∧
    (0 < ([1] : List Int).length →
       ([1] : List Int).length = ([1, 2, 3] : List Int).length →
       chooseFilter [1, 2, 3] [1] = FilterParam.noFilter) ∧
    (0 < ([1] : List Int).length →
       2 * ([1] : List Int).length ≤ ([1, 2, 3] : List Int).length →
       chooseFilter [1, 2, 3] [1] = FilterParam.contributors [1]) ∧
    (([1, 2, 3] : List Int).length < 2 * ([1] : List Int).length →
       ([1] : List Int).length < ([1, 2, 3] : List Int).length →
       chooseFilter [1, 2, 3] [1] =
         FilterParam.exclude_contributors
           (([1, 2, 3] : List Int).filter (fun i => !(([1] : List Int).contains i))) ∧
       (sentIds (chooseFilter [1, 2, 3] [1])).length =
         ([1, 2, 3] : List Int).length - ([1] : List Int).length) ∧
    (0 < ([1] : List Int).length →
       2 * (sentIds (chooseFilter [1, 2, 3] [1])).length ≤
         ([1, 2, 3] : List Int).length)) :=
  ⟨⟨by decide, by decide, by decide, by decide⟩,
    filter_strategy_selection [1, 2, 3] [1] (by decide) (by decide) (by decide)
      (by decide)⟩

/-! ### C2: filter-strategy equivalence -/

/-- Two filters that agree on every stored bucket's contributor yield the
same per-file aggregation. -/
theorem fileValue_congr (buckets : List MetricBucket) (m : Metric) (s e : Nat)
    (flt1 flt2 : FilterParam)
    (h : ∀ b ∈ buckets,
      matchesFilter flt1 b.contributor_id = matchesFilter flt2 b.contributor_id)
    (fid : Nat) :
    fileValue buckets m s e flt1 fid = fileValue buckets m s e flt2 fid := by
  unfold fileValue
  have hf : buckets.filter (fun b =>
        b.file_id == fid && decide (s ≤ b.date) && decide (b.date ≤ e) &&
        matchesFilter flt1 b.contributor_id)
      = buckets.filter (fun b =>
        b.file_id == fid && decide (s ≤ b.date) && decide (b.date ≤ e) &&
        matchesFilter flt2 b.contributor_id) :=
    List.filter_congr (fun b hb => by rw [h b hb])
  rw [hf]

/-- Two filters that agree on every stored bucket's contributor yield the
same full query response. -/
theorem queryTree_filter_congr (files : List FileRow) (buckets : List MetricBucket)
    (s e : Nat) (flt1 flt2 : FilterParam) (m : Metric)
    (h : ∀ b ∈ buckets,
      matchesFilter flt1 b.contributor_id = matchesFilter flt2 b.contributor_id) :
    queryTree files buckets s e flt1 m = queryTree files buckets s e flt2 m := by
  unfold queryTree
  by_cases hlt : e < s
  · simp [hlt]
  · simp only [if_neg hlt]
    congr 1
    apply List.map_congr_left
    intro f hf
    have hnv : nodeValue files buckets m s e flt1 f
        = nodeValue files buckets m s e flt2 f := by
      unfold nodeValue
      congr 1
      apply List.map_congr_left
      intro fid hfid
      exact fileValue_congr buckets m s e flt1 flt2 h fid
    rw [hnv]

/-- C2: for every store whose buckets reference known contributor ids,
querying with the inclusion list S returns exactly the same per-node
values as querying with the exclusion list of the complement of S: the
strategy choice is invisible to the caller. -/
theorem filter_strategy_equivalence (files : List FileRow)
    (buckets : List MetricBucket) (s e : Nat) (m : Metric) (allIds sel : List Int)
    (hb : ∀ b ∈ buckets, b.contributor_id ∈ allIds) :
    queryTree files buckets s e (FilterParam.contributors sel) m =
      queryTree files buckets s e
        (FilterParam.exclude_contributors
          (allIds.filter (fun i => !(sel.contains i)))) m := by
  apply queryTree_filter_congr
  intro b hbmem
  simp only [matchesFilter]
  rw [contains_filter_not allIds sel b.contributor_id (hb b hbmem), Bool.not_not]

/-- Witness for the C2 theorem: one file with two buckets by contributors
1 and 2, selecting contributor 1 versus excluding contributor 2. -/
theorem filter_strategy_equivalence_witness :
    (∀ b ∈ [MetricBucket.mk 1 1 0 2 3 4, MetricBucket.mk 1 2 1 1 1 1],
       b.contributor_id ∈ ([1, 2] : List Int)) ∧
    queryTree [FileRow.mk 1 "a.txt" none "a.txt" false]
        [MetricBucket.mk 1 1 0 2 3 4, MetricBucket.mk 1 2 1 1 1 1] 0 5
        (FilterParam.contributors [1]) Metric.commit_count =
      queryTree [FileRow.mk 1 "a.txt" none "a.txt" false]
        [MetricBucket.mk 1 1 0 2 3 4, MetricBucket.mk 1 2 1 1 1 1] 0 5
        (FilterParam.exclude_contributors
          (([1, 2] : List Int).filter (fun i => !(([1] : List Int).contains i))))
        Metric.commit_count :=
  ⟨by decide,
    filter_strategy_equivalence [FileRow.mk 1 "a.txt" none "a.txt" false]
      [MetricBucket.mk 1 1 0 2 3 4, MetricBucket.mk 1 2 1 1 1 1] 0 5
      Metric.commit_count [1, 2] [1] (by decide)⟩

/-! ### C5: structural stability of the tree response -/

/-- C5: for every valid date range and arbitrary contributor filter, the
response lists every node of the hierarchy, in order, keyed by the same
ids; and any node none of whose subtree buckets match the range and
filter is reported with aggregated value 0. -/
theorem structural_stability (files : List FileRow) (buckets : List MetricBucket)
    (s e : Nat) (flt : FilterParam) (m : Metric) (hse : s ≤ e) :
    ∃ rows, queryTree files buckets s e flt m = Except.ok rows ∧
      rows.map Prod.fst = files.map FileRow.id ∧
      ∀ f ∈ files,
        (∀ b ∈ buckets, b.file_id ∈ subtreeFileIds files f →
           ¬(s ≤ b.date ∧ b.date ≤ e ∧ matchesFilter flt b.contributor_id = true)) →
        (f.id, 0) ∈ rows := by
  refine ⟨files.map (fun f => (f.id, nodeValue files buckets m s e flt f)), ?_, ?_, ?_⟩
  · unfold queryTree
    rw [if_neg (by omega)]
  · rw [List.map_map]
    rfl
  · intro f hf hno
    have hzero : nodeValue files buckets m s e flt f = 0 := by
      unfold nodeValue
      apply List.sum_eq_zero
      intro x hx
      rw [List.mem_map] at hx
      obtain ⟨fid, hfid, rfl⟩ := hx
      unfold fileValue
      have hemp : buckets.filter (fun b =>
          b.file_id == fid && decide (s ≤ b.date) && decide (b.date ≤ e) &&
          matchesFilter flt b.contributor_id) = [] := by
        rw [List.filter_eq_nil_iff]
        intro b hb hpred
        simp only [Bool.and_eq_true, beq_iff_eq, decide_eq_true_eq] at hpred
        obtain ⟨⟨⟨hfid', hs'⟩, he'⟩, hm'⟩ := hpred
        exact hno b hb (by rw [hfid']; exact hfid) ⟨hs', he', hm'⟩
      rw [hemp]
      rfl
    rw [List.mem_map]
    exact ⟨f, hf, by rw [hzero]⟩

/-- Witness for the C5 theorem: one file whose only bucket lies outside
the queried range, reported with value 0. -/
theorem structural_stability_witness :
    (0 : Nat) ≤ 5 ∧
    (∃ rows, queryTree [FileRow.mk 1 "a.txt" none "a.txt" false]
        [MetricBucket.mk 1 1 10 1 1 1] 0 5 FilterParam.noFilter Metric.commit_count
        = Except.ok rows ∧
      rows.map Prod.fst = [FileRow.mk 1 "a.txt" none "a.txt" false].map FileRow.id ∧
      ∀ f ∈ [FileRow.mk 1 "a.txt" none "a.txt" false],
        (∀ b ∈ [MetricBucket.mk 1 1 10 1 1 1],
           b.file_id ∈ subtreeFileIds [FileRow.mk 1 "a.txt" none "a.txt" false] f →
           ¬(0 ≤ b.date ∧ b.date ≤ 5 ∧
             matchesFilter FilterParam.noFilter b.contributor_id = true)) →
        (f.id, 0) ∈ rows) :=
  ⟨by decide,
    structural_stability [FileRow.mk 1 "a.txt" none "a.txt" false]
      [MetricBucket.mk 1 1 10 1 1 1] 0 5 FilterParam.noFilter Metric.commit_count
      (by decide)⟩

/-! ### C7: query-time error handling -/

/-- Appending an id that no element equals does not change containment
in the appended list. -/
theorem contains_append_single (l : List Int) (x c : Int) (h : c ≠ x) :
    (l ++ [x]).contains c = l.contains c := by
  simp [List.elem_iff, h]

/-- C7: a query whose end date precedes its start date is rejected with a
descriptive error, with no default substitution; a contributor id that
occurs in no stored bucket may be added to an inclusion filter without
changing the result at all: it silently contributes nothing and raises no
error. -/
theorem query_error_handling (files : List FileRow) (buckets : List MetricBucket)
    (s e : Nat) (flt : FilterParam) (m : Metric) (sel : List Int) (cid : Int)
    (hghost : ∀ b ∈ buckets, b.contributor_id ≠ cid) :
    (e < s → queryTree files buckets s e flt m
        = Except.error "end_date is before start_date") ∧
    queryTree files buckets s e (FilterParam.contributors (sel ++ [cid])) m =
      queryTree files buckets s e (FilterParam.contributors sel) m := by
  constructor
  · intro hlt
    unfold queryTree
    rw [if_pos hlt]
  · apply queryTree_filter_congr
    intro b hb
    simp only [matchesFilter]
    rw [contains_append_single sel cid b.contributor_id (hghost b hb)]

/-- Witness for the C7 theorem: contributor id 7 occurs in no bucket;
filtering on it silently contributes nothing, and the inverted range 5..0
is rejected. -/
theorem query_error_handling_witness :
    (∀ b ∈ [MetricBucket.mk 1 1 2 1 1 1], b.contributor_id ≠ (7 : Int)) ∧
    ((0 < 5 → queryTree [FileRow.mk 1 "a.txt" none "a.txt" false]
        [MetricBucket.mk 1 1 2 1 1 1] 5 0 FilterParam.noFilter Metric.commit_count
        = Except.error "end_date is before start_date") ∧
    queryTree [FileRow.mk 1 "a.txt" none "a.txt" false]
        [MetricBucket.mk 1 1 2 1 1 1] 5 0
        (FilterParam.contributors ([1] ++ [7])) Metric.commit_count =
      queryTree [FileRow.mk 1 "a.txt" none "a.txt" false]
        [MetricBucket.mk 1 1 2 1 1 1] 5 0
        (FilterParam.contributors [1]) Metric.commit_count) :=
  ⟨by decide,
    query_error_handling [FileRow.mk 1 "a.txt" none "a.txt" false]
      [MetricBucket.mk 1 1 2 1 1 1] 5 0 FilterParam.noFilter Metric.commit_count
      [1] 7 (by decide)⟩

/-! ### C3 and C4: the Metric Accumulator -/

/-- The counter update leaves every entry's key unchanged. -/
theorem bump_keys (m : AccMap) (k : BucketKey) (a d : Nat) :
    (m.map (bump a d k)).map Prod.fst = m.map Prod.fst := by
  rw [List.map_map]
  apply List.map_congr_left
  intro p hp
  simp only [Function.comp_apply, bump]
  split <;> rfl

/-- Recording an event preserves key uniqueness of the accumulator. -/
theorem record_keys_nodup (m : AccMap) (k : BucketKey) (a d : Nat)
    (hnd : (m.map Prod.fst).Nodup) : ((record m k a d).map Prod.fst).Nodup := by
  unfold record
  split
  · rw [bump_keys]
    exact hnd
  · rename_i h
    rw [List.map_append]
    refine List.Nodup.append hnd (List.nodup_singleton k) ?_
    intro x hx hx'
    simp only [List.map_cons, List.map_nil, List.mem_singleton] at hx'
    subst hx'
    rw [List.mem_map] at hx
    obtain ⟨p, hp, hpk⟩ := hx
    exact h (List.any_eq_true.2 ⟨p, hp, by simp [hpk]⟩)

/-- Unfolding of the per-file commit total on a cons cell. -/
theorem fcc_cons (x : BucketKey × Counters) (l : AccMap) (fid : Nat) :
    fileCommitCount (x :: l) fid
      = (if x.1.fileId = fid then x.2.commit_count else 0) + fileCommitCount l fid := by
  unfold fileCommitCount
  rw [List.map_cons, List.sum_cons]

/-- Updating the (unique) entry with the given key adds exactly one to
the commit total of that key's file. -/
theorem fcc_bump (m : AccMap) (k : BucketKey) (a d : Nat) (fid : Nat)
    (hnd : (m.map Prod.fst).Nodup) (hmem : k ∈ m.map Prod.fst) :
    fileCommitCount (m.map (bump a d k)) fid
      = fileCommitCount m fid + (if k.fileId = fid then 1 else 0) := by
  induction m with
  | nil => simp at hmem
  | cons p t ih =>
      rw [List.map_cons, fcc_cons, fcc_cons]
      by_cases hpk : p.1 = k
      · have hkt : k ∉ t.map Prod.fst := by
          rw [List.map_cons] at hnd
          have := (List.nodup_cons.1 hnd).1
          rw [hpk] at this
          exact this
        have htid : t.map (bump a d k) = t := by
          have hq : ∀ q ∈ t, bump a d k q = q := by
            intro q hq
            unfold bump
            rw [if_neg]
            simp only [beq_iff_eq]
            intro hqe
            exact hkt (List.mem_map.2 ⟨q, hq, hqe⟩)
          calc t.map (bump a d k) = t.map id := List.map_congr_left hq
            _ = t := List.map_id t
        have hb : bump a d k p
            = (p.1, Counters.mk (p.2.commit_count + 1) (p.2.lines_added + a)
                (p.2.lines_deleted + d)) := by
          simp [bump, hpk]
        rw [htid, hb]
        simp only [hpk]
        by_cases hfid : k.fileId = fid
        · simp [hfid]
          omega
        · simp [hfid]
      · have hmem' : k ∈ t.map Prod.fst := by
          rw [List.map_cons, List.mem_cons] at hmem
          rcases hmem with h1 | h2
          · exact absurd h1.symm hpk
          · exact h2
        have hnd' : (t.map Prod.fst).Nodup := by
          rw [List.map_cons] at hnd
          exact (List.nodup_cons.1 hnd).2
        have hb : bump a d k p = p := by
          simp [bump, hpk]
        rw [hb, ih hnd' hmem']
        omega

/-- Recording an event adds exactly one to the commit total of the
touched file and leaves other files' totals unchanged. -/
theorem record_fileCommitCount (m : AccMap) (k : BucketKey) (a d : Nat) (fid : Nat)
    (hnd : (m.map Prod.fst).Nodup) :
    fileCommitCount (record m k a d) fid
      = fileCommitCount m fid + (if k.fileId = fid then 1 else 0) := by
  unfold record
  split
  · rename_i h
    have hmem : k ∈ m.map Prod.fst := by
      obtain ⟨p, hp, hpk⟩ := List.any_eq_true.1 h
      rw [beq_iff_eq] at hpk
      exact List.mem_map.2 ⟨p, hp, hpk⟩
    exact fcc_bump m k a d fid hnd hmem
  · unfold fileCommitCount
    rw [List.map_append, List.sum_append]
    simp

/-- C3: at every point, at most one bucket exists per (file, contributor,
day) key, and recording an event for an already-present key updates that
bucket's counters in place (commit_count + 1, lines accumulated) without
adding a row, while a fresh key appends exactly one new bucket. -/
theorem bucket_uniqueness (m : AccMap) (k : BucketKey) (a d : Nat)
    (hnd : (m.map Prod.fst).Nodup) :
    ((record m k a d).map Prod.fst).Nodup ∧
    (∀ c : Counters, (k, c) ∈ m →
       (record m k a d).length = m.length ∧
       (k, Counters.mk (c.commit_count + 1) (c.lines_added + a) (c.lines_deleted + d))
         ∈ record m k a d) ∧
    ((∀ c : Counters, (k, c) ∉ m) →
       record m k a d = m ++ [(k, Counters.mk 1 a d)]) := by
  refine ⟨record_keys_nodup m k a d hnd, ?_, ?_⟩
  · intro c hc
    have hany : m.any (fun p => p.1 == k) = true :=
      List.any_eq_true.2 ⟨(k, c), hc, by simp⟩
    unfold record
    rw [if_pos hany]
    constructor
    · simp
    · refine List.mem_map.2 ⟨(k, c), hc, ?_⟩
      unfold bump
      rw [if_pos (by simp)]
  · intro hnone
    unfold record
    rw [if_neg]
    intro hany
    obtain ⟨p, hp, hpk⟩ := List.any_eq_true.1 hany
    rw [beq_iff_eq] at hpk
    exact hnone p.2 (by rw [← hpk]; exact hp)

/-- Witness for the C3 theorem: a one-bucket map whose key is recorded
again. -/
theorem bucket_uniqueness_witness :
    ((([(BucketKey.mk 1 1 5, Counters.mk 1 2 3)] : AccMap).map Prod.fst).Nodup) ∧
    (((record [(BucketKey.mk 1 1 5, Counters.mk 1 2 3)] (BucketKey.mk 1 1 5) 4 5).map
        Prod.fst).Nodup ∧
     (∀ c : Counters, (BucketKey.mk 1 1 5, c) ∈
         ([(BucketKey.mk 1 1 5, Counters.mk 1 2 3)] : AccMap) →
       (record [(BucketKey.mk 1 1 5, Counters.mk 1 2 3)] (BucketKey.mk 1 1 5) 4 5).length
         = ([(BucketKey.mk 1 1 5, Counters.mk 1 2 3)] : AccMap).length ∧
       (BucketKey.mk 1 1 5,
          Counters.mk (c.commit_count + 1) (c.lines_added + 4) (c.lines_deleted + 5))
         ∈ record [(BucketKey.mk 1 1 5, Counters.mk 1 2 3)] (BucketKey.mk 1 1 5) 4 5) ∧
     ((∀ c : Counters, (BucketKey.mk 1 1 5, c) ∉
         ([(BucketKey.mk 1 1 5, Counters.mk 1 2 3)] : AccMap)) →
       record [(BucketKey.mk 1 1 5, Counters.mk 1 2 3)] (BucketKey.mk 1 1 5) 4 5
         = [(BucketKey.mk 1 1 5, Counters.mk 1 2 3)] ++
             [(BucketKey.mk 1 1 5, Counters.mk 1 4 5)])) :=
  ⟨by decide,
    bucket_uniqueness [(BucketKey.mk 1 1 5, Counters.mk 1 2 3)] (BucketKey.mk 1 1 5)
      4 5 (by decide)⟩

/-- Folding events into an accumulator with unique keys adds, per file,
exactly the number of events touching that file. -/
theorem ingest_fcc_aux (evs : List ChangeEvent) (m : AccMap) (fid : Nat)
    (hnd : (m.map Prod.fst).Nodup) :
    fileCommitCount (evs.foldl (fun acc e =>
        record acc (BucketKey.mk e.fileId e.contributorId e.day) e.added e.deleted) m) fid
      = fileCommitCount m fid + (evs.filter (fun e => e.fileId == fid)).length := by
  induction evs generalizing m with
  | nil => simp
  | cons e t ih =>
      rw [List.foldl_cons]
      have h1 := record_fileCommitCount m (BucketKey.mk e.fileId e.contributorId e.day)
        e.added e.deleted fid hnd
      have h2 := ih (record m (BucketKey.mk e.fileId e.contributorId e.day)
        e.added e.deleted)
        (record_keys_nodup m (BucketKey.mk e.fileId e.contributorId e.day)
          e.added e.deleted hnd)
      rw [h2, h1, List.filter_cons]
      by_cases hf : e.fileId = fid
      · simp only [hf]
        simp
        omega
      · simp [hf]

/-- C4: after a complete ingestion, the sum of commit_count over all
buckets of a file equals the number of processed change events touching
that file (one per commit that touched it, since a commit's diff lists a
file at most once). -/
theorem commit_count_conservation (evs : List ChangeEvent) (fid : Nat) :
    fileCommitCount (ingest evs) fid
      = (evs.filter (fun e => e.fileId == fid)).length := by
  unfold ingest
  have := ingest_fcc_aux evs [] fid (by simp)
  simpa [fileCommitCount] using this

/-! ### C6: Path Resolver idempotence -/

/-- A successful path lookup is unaffected by appending rows. -/
theorem findByPath_append_some (t l : List FileRow) (p : String) (f : FileRow)
    (h : findByPath t p = some f) : findByPath (t ++ l) p = some f := by
  unfold findByPath at h ⊢
  rw [List.find?_append, h]
  rfl

/-- Ensuring a path that is already present returns the found id and
leaves the table unchanged. -/
theorem ensure_found (t : List FileRow) (p nm : String) (par : Option Nat)
    (d : Bool) (f : FileRow) (h : findByPath t p = some f) :
    ensureNode t p nm par d = (t, f.id) := by
  unfold ensureNode
  rw [h]

/-- Ensuring any path preserves a successful lookup of another path. -/
theorem ensure_mono (t : List FileRow) (q nm : String) (par : Option Nat)
    (d : Bool) (p : String) (f : FileRow) (h : findByPath t p = some f) :
    findByPath (ensureNode t q nm par d).1 p = some f := by
  unfold ensureNode
  rcases hq : findByPath t q with _ | g
  · simp only [hq]
    exact findByPath_append_some t _ p f h
  · simp only [hq]
    exact h

/-- After ensuring a path, a lookup of that path succeeds and returns a
row carrying the returned id. -/
theorem ensure_creates (t : List FileRow) (p nm : String) (par : Option Nat)
    (d : Bool) :
    ∃ f, findByPath (ensureNode t p nm par d).1 p = some f ∧
      f.id = (ensureNode t p nm par d).2 := by
  unfold ensureNode
  rcases hq : findByPath t p with _ | g
  · simp only [hq]
    refine ⟨FileRow.mk (t.length + 1) p par nm d, ?_, rfl⟩
    unfold findByPath at hq ⊢
    rw [List.find?_append, hq]
    simp
  · simp only [hq]
    exact ⟨g, rfl, rfl⟩

/-- The prefix walk preserves a successful lookup. -/
theorem resolveSegs_mono (segs : List String) (d : Bool) :
    ∀ (t : List FileRow) (par : Option Nat) (acc : List String) (p : String)
      (f : FileRow), findByPath t p = some f →
      findByPath (resolveSegs t par acc segs d).1 p = some f := by
  induction segs with
  | nil =>
      intro t par acc p f h
      simpa [resolveSegs] using h
  | cons s rest ih =>
      intro t par acc p f h
      cases rest with
      | nil =>
          simp only [resolveSegs]
          exact ensure_mono t _ s par d p f h
      | cons s2 r2 =>
          simp only [resolveSegs]
          exact ih _ _ _ p f (ensure_mono t _ s par true p f h)

/-- The prefix walk is idempotent: running it again from the table it
produced changes nothing and returns the same id. -/
theorem resolveSegs_idem (segs : List String) (d : Bool) :
    ∀ (t : List FileRow) (par : Option Nat) (acc : List String),
      resolveSegs (resolveSegs t par acc segs d).1 par acc segs d
        = resolveSegs t par acc segs d := by
  induction segs with
  | nil =>
      intro t par acc
      simp [resolveSegs]
  | cons s rest ih =>
      intro t par acc
      cases rest with
      | nil =>
          simp only [resolveSegs]
          obtain ⟨f, hf, hid⟩ := ensure_creates t (joinPath (acc ++ [s]) d) s par d
          rw [ensure_found _ _ _ _ _ f hf, hid]
      | cons s2 r2 =>
          simp only [resolveSegs]
          obtain ⟨f, hf, hid⟩ := ensure_creates t (joinPath (acc ++ [s]) true) s par true
          have hf2 : findByPath
              (resolveSegs (ensureNode t (joinPath (acc ++ [s]) true) s par true).1
                (some (ensureNode t (joinPath (acc ++ [s]) true) s par true).2)
                (acc ++ [s]) (s2 :: r2) d).1
              (joinPath (acc ++ [s]) true) = some f :=
            resolveSegs_mono (s2 :: r2) d _ _ _ _ f hf
          rw [ensure_found _ _ _ _ _ f hf2]
          dsimp only
          rw [hid]
          exact ih _ _ _

/-- Ensuring a node preserves uniqueness of paths. -/
theorem ensure_paths_nodup (t : List FileRow) (p nm : String) (par : Option Nat)
    (d : Bool) (h : (t.map FileRow.path).Nodup) :
    ((ensureNode t p nm par d).1.map FileRow.path).Nodup := by
  unfold ensureNode
  rcases hq : findByPath t p with _ | g
  · simp only [hq]
    rw [List.map_append]
    refine List.Nodup.append h (by simp) ?_
    intro x hx hx'
    have hxp : x = p := by simpa using hx'
    rw [List.mem_map] at hx
    obtain ⟨f, hfmem, hfp⟩ := hx
    unfold findByPath at hq
    rw [List.find?_eq_none] at hq
    have hne : f.path ≠ p := by simpa using hq f hfmem
    exact hne (hfp.trans hxp)
  · simp only [hq]
    exact h

/-- The prefix walk preserves uniqueness of paths. -/
theorem resolveSegs_paths_nodup (segs : List String) (d : Bool) :
    ∀ (t : List FileRow) (par : Option Nat) (acc : List String),
      (t.map FileRow.path).Nodup →
      ((resolveSegs t par acc segs d).1.map FileRow.path).Nodup := by
  induction segs with
  | nil =>
      intro t par acc h
      simpa [resolveSegs] using h
  | cons s rest ih =>
      intro t par acc h
      cases rest with
      | nil =>
          simp only [resolveSegs]
          exact ensure_paths_nodup t _ s par d h
      | cons s2 r2 =>
          simp only [resolveSegs]
          exact ih _ _ _ (ensure_paths_nodup t _ s par true h)

/-- C6: path resolution is idempotent: resolving the same path (segment
list) twice returns the same id and creates no duplicate node; node
paths stay unique; and resolving the segments of a/b/c.txt in an empty
table creates exactly one directory node for a/ and exactly one for
a/b/. -/
theorem path_resolver_idempotent (t : List FileRow) (segs : List String)
    (isDir : Bool) (hnd : (t.map FileRow.path).Nodup) :
    resolve (resolve t segs isDir).1 segs isDir = resolve t segs isDir ∧
    (((resolve t segs isDir).1.map FileRow.path).Nodup) ∧
    ((((resolve ([] : List FileRow) ["a", "b", "c.txt"] false).1.filter
        (fun f => f.path == "a/" && f.is_directory)).length = 1) ∧
      (((resolve ([] : List FileRow) ["a", "b", "c.txt"] false).1.filter
        (fun f => f.path == "a/b/" && f.is_directory)).length = 1)) := by
  refine ⟨?_, ?_, ?_⟩
  · unfold resolve
    exact resolveSegs_idem segs isDir t none []
  · unfold resolve
    exact resolveSegs_paths_nodup segs isDir t none [] hnd
  · decide

/-- Witness for the C6 theorem: resolving src/a.py starting from an empty
table. -/
theorem path_resolver_idempotent_witness :
    ((([] : List FileRow).map FileRow.path).Nodup) ∧
    (resolve (resolve ([] : List FileRow) ["src", "a.py"] false).1 ["src", "a.py"] false
        = resolve ([] : List FileRow) ["src", "a.py"] false ∧
    (((resolve ([] : List FileRow) ["src", "a.py"] false).1.map FileRow.path).Nodup) ∧
    ((((resolve ([] : List FileRow) ["a", "b", "c.txt"] false).1.filter
        (fun f => f.path == "a/" && f.is_directory)).length = 1) ∧
      (((resolve ([] : List FileRow) ["a", "b", "c.txt"] false).1.filter
        (fun f => f.path == "a/b/" && f.is_directory)).length = 1))) :=
  ⟨by decide, path_resolver_idempotent [] ["src", "a.py"] false (by decide)⟩

/-! ### C8: Contributor Registry -/

/-- Resolving an email that is already registered returns the found id
and leaves the table unchanged. -/
theorem resolveContributor_found (t : List Contributor) (nm em : String)
    (c : Contributor) (h : t.find? (fun x => x.email == em) = some c) :
    resolveContributor t nm em = (t, c.id) := by
  unfold resolveContributor
  rw [h]

/-- C8: contributor identities are deduplicated by email: resolution
keeps emails unique; a fresh email is created with the given name; a
later resolution of the same email with a different name returns the
existing id, changes nothing, and the stored display name stays the one
first seen. -/
theorem contributor_registry (t : List Contributor) (nm1 nm2 em : String)
    (hnd : (t.map Contributor.email).Nodup) (hfresh : ∀ c ∈ t, c.email ≠ em) :
    (∀ nm em2, (((resolveContributor t nm em2).1).map Contributor.email).Nodup) ∧
    (resolveContributor t nm1 em).1 = t ++ [Contributor.mk (t.length + 1) nm1 em] ∧
    resolveContributor ((resolveContributor t nm1 em).1) nm2 em
      = ((resolveContributor t nm1 em).1, t.length + 1) ∧
    ((resolveContributor t nm1 em).1).find? (fun c => c.email == em)
      = some (Contributor.mk (t.length + 1) nm1 em) := by
  have hnone : t.find? (fun c => c.email == em) = none := by
    rw [List.find?_eq_none]
    intro c hc
    simp [hfresh c hc]
  have htab : (resolveContributor t nm1 em).1
      = t ++ [Contributor.mk (t.length + 1) nm1 em] := by
    unfold resolveContributor
    rw [hnone]
  have hfind : ((resolveContributor t nm1 em).1).find? (fun c => c.email == em)
      = some (Contributor.mk (t.length + 1) nm1 em) := by
    rw [htab, List.find?_append, hnone]
    simp
  refine ⟨?_, htab, ?_, hfind⟩
  · intro nm em2
    unfold resolveContributor
    rcases hq : t.find? (fun c => c.email == em2) with _ | g
    · simp only [hq]
      rw [List.map_append]
      refine List.Nodup.append hnd (by simp) ?_
      intro x hx hx'
      have hxp : x = em2 := by simpa using hx'
      rw [List.mem_map] at hx
      obtain ⟨c, hcmem, hce⟩ := hx
      rw [List.find?_eq_none] at hq
      have hne : c.email ≠ em2 := by simpa using hq c hcmem
      exact hne (hce.trans hxp)
    · simp only [hq]
      exact hnd
  · exact resolveContributor_found _ nm2 em _ hfind

/-- Witness for the C8 theorem: registering a fresh email and then
resolving it again with a different display name. -/
theorem contributor_registry_witness :
    ((([] : List Contributor).map Contributor.email).Nodup ∧
      (∀ c ∈ ([] : List Contributor), c.email ≠ "a@x")) ∧
    ((∀ nm em2,
        (((resolveContributor [] nm em2).1).map Contributor.email).Nodup) ∧
     (resolveContributor [] "Alice" "a@x").1
        = [] ++ [Contributor.mk 1 "Alice" "a@x"] ∧
     resolveContributor ((resolveContributor [] "Alice" "a@x").1) "Alicia" "a@x"
        = ((resolveContributor [] "Alice" "a@x").1, 1) ∧
     ((resolveContributor [] "Alice" "a@x").1).find? (fun c => c.email == "a@x")
        = some (Contributor.mk 1 "Alice" "a@x")) :=
  ⟨⟨by decide, by decide⟩,
    contributor_registry [] "Alice" "Alicia" "a@x" (by decide) (by decide)⟩

/-! ### C9: the single-slot latest-pending-request-wins queue -/

/-- Along any valid trace, the pending slot exactly accounts for the
difference between issued and completed fetches: the number of
outstanding requests is the slot's occupancy. -/
theorem queue_invariant (es : List QEvent) :
    ∀ st : VisState, validFrom st es = true →
      outstanding (qexec st es) + completedCount es
        = outstanding st + issuedCount st es := by
  induction es with
  | nil =>
      intro st hv
      simp [qexec, completedCount, issuedCount]
  | cons e t ih =>
      intro st hv
      unfold validFrom at hv
      rw [Bool.and_eq_true] at hv
      have hv2 : validFrom (qstep st e).1 t = true := hv.2
      have hpend : e = QEvent.complete → st.pendingMetricsRequest.isSome = true := by
        intro h
        subst h
        simpa using hv.1
      have hrec := ih (qstep st e).1 hv2
      have hqe : qexec st (e :: t) = qexec (qstep st e).1 t := by
        simp [qexec]
      have hic : issuedCount st (e :: t)
          = (if ((qstep st e).2).isSome then 1 else 0)
            + issuedCount (qstep st e).1 t := rfl
      have hcc : completedCount (e :: t)
          = (if e == QEvent.complete then 1 else 0) + completedCount t := by
        unfold completedCount
        rw [List.countP_cons]
        omega
      have hstep : outstanding (qstep st e).1 + (if e == QEvent.complete then 1 else 0)
          = outstanding st + (if ((qstep st e).2).isSome then 1 else 0) := by
        cases e with
        | call p =>
            simp only [qstep]
            cases hp : st.pendingMetricsRequest with
            | some r => simp [loadMetricsEnter, outstanding, hp]
            | none => simp [loadMetricsEnter, outstanding, hp]
        | complete =>
            have hp : st.pendingMetricsRequest.isSome = true := hpend rfl
            simp only [qstep]
            cases hn : st.nextMetricsRequest with
            | some r => simp [loadMetricsFinally, loadMetricsEnter, outstanding, hn, hp]
            | none => simp [loadMetricsFinally, outstanding, hn, hp]
      rw [hqe, hic, hcc]
      omega

/-- C9: the client's metrics loading is a single-slot
latest-pending-request-wins queue: along any valid trace at most one
request is outstanding beyond the completions (the pending slot accounts
for issued minus completed fetches); a call made while a request is in
flight only overwrites the next slot (latest call wins) and issues
nothing; and completing while a next request is stored immediately issues
exactly that stored request. -/
theorem request_queue (es : List QEvent) (st : VisState) (q p p1 p2 : ReqParams)
    (n : Option ReqParams) (hv : validFrom st es = true) :
    (outstanding (qexec st es) + completedCount es
        = outstanding st + issuedCount st es) ∧
    (outstanding st = 0 → issuedCount st es ≤ completedCount es + 1) ∧
    loadMetricsEnter (VisState.mk (some q) n) p
      = (VisState.mk (some q) (some p), none) ∧
    loadMetricsEnter (loadMetricsEnter (VisState.mk (some q) n) p1).1 p2
      = (VisState.mk (some q) (some p2), none) ∧
    loadMetricsFinally (VisState.mk (some q) (some p))
      = (VisState.mk (some p) none, some p) ∧
    loadMetricsFinally (VisState.mk (some q) none) = (VisState.mk none none, none) := by
  have hinv := queue_invariant es st hv
  refine ⟨hinv, ?_, rfl, rfl, rfl, rfl⟩
  intro h0
  have hle : outstanding (qexec st es) ≤ 1 := by
    unfold outstanding
    split <;> omega
  omega

/-- Witness for the C9 theorem: two calls in rapid succession followed by
the two completions; the second call overwrites the slot and is issued
when the first fetch completes. -/
theorem request_queue_witness :
    (validFrom (VisState.mk none none)
        [QEvent.call (ReqParams.mk 0 1 none), QEvent.call (ReqParams.mk 2 3 (some [1])),
         QEvent.complete, QEvent.complete] = true) ∧
    ((outstanding (qexec (VisState.mk none none)
        [QEvent.call (ReqParams.mk 0 1 none), QEvent.call (ReqParams.mk 2 3 (some [1])),
         QEvent.complete, QEvent.complete])
        + completedCount
          [QEvent.call (ReqParams.mk 0 1 none), QEvent.call (ReqParams.mk 2 3 (some [1])),
           QEvent.complete, QEvent.complete]
        = outstanding (VisState.mk none none)
          + issuedCount (VisState.mk none none)
            [QEvent.call (ReqParams.mk 0 1 none), QEvent.call (ReqParams.mk 2 3 (some [1])),
             QEvent.complete, QEvent.complete]) ∧
    (outstanding (VisState.mk none none) = 0 →
        issuedCount (VisState.mk none none)
          [QEvent.call (ReqParams.mk 0 1 none), QEvent.call (ReqParams.mk 2 3 (some [1])),
           QEvent.complete, QEvent.complete]
          ≤ completedCount
            [QEvent.call (ReqParams.mk 0 1 none), QEvent.call (ReqParams.mk 2 3 (some [1])),
             QEvent.complete, QEvent.complete] + 1) ∧
    loadMetricsEnter (VisState.mk (some (ReqParams.mk 0 1 none)) none) (ReqParams.mk 2 3 (some [1]))
      = (VisState.mk (some (ReqParams.mk 0 1 none)) (some (ReqParams.mk 2 3 (some [1]))), none) ∧
    loadMetricsEnter
        (loadMetricsEnter (VisState.mk (some (ReqParams.mk 0 1 none)) none)
          (ReqParams.mk 0 1 none)).1 (ReqParams.mk 2 3 (some [1]))
      = (VisState.mk (some (ReqParams.mk 0 1 none)) (some (ReqParams.mk 2 3 (some [1]))), none) ∧
    loadMetricsFinally
        (VisState.mk (some (ReqParams.mk 0 1 none)) (some (ReqParams.mk 2 3 (some [1]))))
      = (VisState.mk (some (ReqParams.mk 2 3 (some [1]))) none, some (ReqParams.mk 2 3 (some [1]))) ∧
    loadMetricsFinally (VisState.mk (some (ReqParams.mk 0 1 none)) none)
      = (VisState.mk none none, none)) :=
  ⟨by decide,
    request_queue
      [QEvent.call (ReqParams.mk 0 1 none), QEvent.call (ReqParams.mk 2 3 (some [1])),
       QEvent.complete, QEvent.complete]
      (VisState.mk none none) (ReqParams.mk 0 1 none) (ReqParams.mk 2 3 (some [1]))
      (ReqParams.mk 0 1 none) (ReqParams.mk 2 3 (some [1])) none (by decide)⟩

/-! ### C10: buildHierarchy totality -/

/-- C10: over a record list with unique ids, buildHierarchy attaches
every record whose parent_id names another record as a child of exactly
that record; a record is a root precisely when its parent_id is null or
names no record; every record ends up as a root or as some record's
child (none is dropped); a sole root is returned directly; otherwise all
roots become children of a synthetic directory node named root. -/
theorem build_hierarchy_total (files : List JFile)
    (hnd : (files.map JFile.id).Nodup) :
    (∀ f ∈ files, ∀ g ∈ files, f.parent_id = some g.id → f ∈ childrenOf files g.id) ∧
    (∀ f ∈ files, ∀ g1 ∈ files, ∀ g2 ∈ files,
       f ∈ childrenOf files g1.id → f ∈ childrenOf files g2.id → g1 = g2) ∧
    (∀ f ∈ files, (isRootRecord files f = true ↔
       (f.parent_id = none ∨ ∀ g ∈ files, some g.id ≠ f.parent_id))) ∧
    (∀ f ∈ files, f ∈ rootsOf files ∨ ∃ g ∈ files, f ∈ childrenOf files g.id) ∧
    (∀ r, rootsOf files = [r] → buildHierarchy files = BuiltTree.direct r) ∧
    ((∀ r, rootsOf files ≠ [r]) →
       buildHierarchy files = BuiltTree.synthetic "root" true (rootsOf files)) := by
  refine ⟨?_, ?_, ?_, ?_, ?_, ?_⟩
  · intro f hf g hg hpar
    exact List.mem_filter.2 ⟨hf, by simp [childrenOf, hpar]⟩
  · intro f hf g1 hg1 g2 hg2 hc1 hc2
    have h1 := (List.mem_filter.1 hc1).2
    have h2 := (List.mem_filter.1 hc2).2
    rw [beq_iff_eq] at h1 h2
    have hid : g1.id = g2.id := by
      have := h1.symm.trans h2
      simpa using this
    exact List.inj_on_of_nodup_map hnd hg1 hg2 hid
  · intro f hf
    simp [isRootRecord, List.any_eq_true]
  · intro f hf
    by_cases h : isRootRecord files f = true
    · left
      exact List.mem_filter.2 ⟨hf, h⟩
    · right
      unfold isRootRecord at h
      rw [Bool.or_eq_true] at h
      push_neg at h
      obtain ⟨h1, h2⟩ := h
      have hany : files.any (fun g => some g.id == f.parent_id) = true := by
        cases hb : files.any (fun g => some g.id == f.parent_id) with
        | true => rfl
        | false => exact absurd (by rw [hb]; rfl) h2
      obtain ⟨g, hg, hgid⟩ := List.any_eq_true.1 hany
      refine ⟨g, hg, List.mem_filter.2 ⟨hf, ?_⟩⟩
      rw [beq_iff_eq] at hgid ⊢
      exact hgid.symm
  · intro r hr
    unfold buildHierarchy
    rw [hr]
  · intro h
    unfold buildHierarchy
    rcases hr : rootsOf files with _ | ⟨a, _ | ⟨b, l⟩⟩
    · rfl
    · exact absurd hr (h a)
    · rfl

/-- Witness for the C10 theorem: a two-record list, one root directory
and one child file. -/
theorem build_hierarchy_total_witness :
    (([JFile.mk 1 none "root" true, JFile.mk 2 (some 1) "a" false].map JFile.id).Nodup) ∧
    ((∀ f ∈ [JFile.mk 1 none "root" true, JFile.mk 2 (some 1) "a" false],
        ∀ g ∈ [JFile.mk 1 none "root" true, JFile.mk 2 (some 1) "a" false],
        f.parent_id = some g.id →
        f ∈ childrenOf [JFile.mk 1 none "root" true, JFile.mk 2 (some 1) "a" false] g.id) ∧
    (∀ f ∈ [JFile.mk 1 none "root" true, JFile.mk 2 (some 1) "a" false],
        ∀ g1 ∈ [JFile.mk 1 none "root" true, JFile.mk 2 (some 1) "a" false],
        ∀ g2 ∈ [JFile.mk 1 none "root" true, JFile.mk 2 (some 1) "a" false],
        f ∈ childrenOf [JFile.mk 1 none "root" true, JFile.mk 2 (some 1) "a" false] g1.id →
        f ∈ childrenOf [JFile.mk 1 none "root" true, JFile.mk 2 (some 1) "a" false] g2.id →
        g1 = g2) ∧
    (∀ f ∈ [JFile.mk 1 none "root" true, JFile.mk 2 (some 1) "a" false],
        (isRootRecord [JFile.mk 1 none "root" true, JFile.mk 2 (some 1) "a" false] f = true ↔
          (f.parent_id = none ∨
            ∀ g ∈ [JFile.mk 1 none "root" true, JFile.mk 2 (some 1) "a" false],
              some g.id ≠ f.parent_id))) ∧
    (∀ f ∈ [JFile.mk 1 none "root" true, JFile.mk 2 (some 1) "a" false],
        f ∈ rootsOf [JFile.mk 1 none "root" true, JFile.mk 2 (some 1) "a" false] ∨
        ∃ g ∈ [JFile.mk 1 none "root" true, JFile.mk 2 (some 1) "a" false],
          f ∈ childrenOf [JFile.mk 1 none "root" true, JFile.mk 2 (some 1) "a" false] g.id) ∧
    (∀ r, rootsOf [JFile.mk 1 none "root" true, JFile.mk 2 (some 1) "a" false] = [r] →
        buildHierarchy [JFile.mk 1 none "root" true, JFile.mk 2 (some 1) "a" false]
          = BuiltTree.direct r) ∧
    ((∀ r, rootsOf [JFile.mk 1 none "root" true, JFile.mk 2 (some 1) "a" false] ≠ [r]) →
        buildHierarchy [JFile.mk 1 none "root" true, JFile.mk 2 (some 1) "a" false]
          = BuiltTree.synthetic "root" true
              (rootsOf [JFile.mk 1 none "root" true, JFile.mk 2 (some 1) "a" false]))) :=
  ⟨by decide,
    build_hierarchy_total [JFile.mk 1 none "root" true, JFile.mk 2 (some 1) "a" false]
      (by decide)⟩

end Repovis
